import Mathlib

/-!
Verification of the AICodeReviewer orchestration core: a shallow embedding of
the navigation sandbox (`reviewer/navigation_tools.py`), the tool-calling
review loop (`reviewer/gemini_client.py`), the token-bucket rate limiter and
its registry (`reviewer/rate_limiter.py`), and the session-store service
(`reviewer/service.py`), together with theorems settling the specification
claims about them.

Modelling conventions:
* POSIX paths are represented as component lists; `Path.resolve()` is modelled
  lexically (an idealized filesystem without symlinks).
* Python `float` arithmetic in the rate limiter is modelled over `ℚ`; the
  wall-clock is externalized as explicit non-negative elapsed-time inputs.
* External processes (ripgrep/grep searches) and the remote reasoning agent
  are externalized as deterministic oracles supplied to the model.
* Python object identity of memoized rate limiters is modelled by allocation
  identifiers.
-/

namespace AICR

/-! ## Computable string primitives

Python's `str.startswith`, `str.endswith`, `str.split`, `str.strip`,
`str.lower` and slicing are modelled on the character lists underlying Lean
strings, so that every definition evaluates by kernel reduction. -/

def strStartsWith (s pre : String) : Bool :=
  pre.data.isPrefixOf s.data

def strEndsWith (s suf : String) : Bool :=
  suf.data.isSuffixOf s.data

def splitOnCharList (sep : Char) : List Char → List (List Char)
  | [] => [[]]
  | c :: rest =>
    match splitOnCharList sep rest with
    | [] => [[c]]
    | h :: t => if c = sep then [] :: h :: t else (c :: h) :: t

/-- Python `s.split(sep)` for a one-character separator. -/
def strSplitChar (s : String) (sep : Char) : List String :=
  (splitOnCharList sep s.data).map String.mk

/-- The part of `l` before its first occurrence of `sep`
(`s.split(sep)[0]`). -/
def upToSeq (sep : List Char) : Nat → List Char → List Char
  | 0, _ => []
  | _, [] => []
  | fuel + 1, c :: rest =>
      if sep.isPrefixOf (c :: rest) then [] else c :: upToSeq sep fuel rest

def strUpToSeq (s sep : String) : String :=
  String.mk (upToSeq sep.data s.data.length s.data)

def listDropWSEnd (l : List Char) : List Char :=
  ((l.reverse).dropWhile Char.isWhitespace).reverse

/-- Python `s.strip()`. -/
def strStrip (s : String) : String :=
  String.mk (listDropWSEnd (s.data.dropWhile Char.isWhitespace))

/-- Python `s.lower()` (ASCII case folding suffices for the model keys). -/
def strLower (s : String) : String :=
  String.mk (s.data.map Char.toLower)

/-- Python `s[:n]`. -/
def strTake (s : String) (n : Nat) : String :=
  String.mk (s.data.take n)

def strLen (s : String) : Nat :=
  s.data.length

def strIntercalate (sep : String) : List String → String
  | [] => ""
  | [x] => x
  | x :: y :: rest => x ++ sep ++ strIntercalate sep (y :: rest)

/-! ## Path model (pathlib semantics, lexical)

A path is a list of components under the root.  Parsing a path string drops
empty components and `"."` (as `PurePosixPath` does) and keeps `".."`;
`resolveComps` performs the lexical `..`-elimination that `Path.resolve()`
applies on a symlink-free filesystem. -/

def splitPathComps (s : String) : List String :=
  (strSplitChar s '/').filter (fun c => c != "" && c != ".")

def isAbsPath (s : String) : Bool :=
  strStartsWith s "/"

def pathStr (p : List String) : String :=
  "/" ++ strIntercalate "/" p

def resolveComps (p : List String) : List String :=
  p.foldl (fun acc c => if c = ".." then acc.dropLast else acc ++ [c]) []

/-- `root / fp` for a `pathlib.Path` root and a string `fp`: an absolute `fp`
replaces the root, a relative one is appended. -/
def joinPath (root : List String) (fp : String) : List String :=
  if isAbsPath fp then splitPathComps fp else root ++ splitPathComps fp

/-- `resolved` lies at or below `root` (true descendant-of-root check,
component-wise). -/
def isDescendantOf (resolved root : List String) : Prop :=
  root <+: resolved

instance (resolved root : List String) : Decidable (isDescendantOf resolved root) := by
  unfold isDescendantOf; infer_instance

/-! ## Filesystem model

Files hold UTF-8 decodable text; `binaries` are files whose `open(...).read()`
raises `UnicodeDecodeError`. -/

structure FS where
  dirs : List (List String)
  textFiles : List (List String × String)
  binaries : List (List String)

def FS.isTextFile (fs : FS) (p : List String) : Bool :=
  (fs.textFiles.map Prod.fst).contains p

def FS.isFile (fs : FS) (p : List String) : Bool :=
  fs.isTextFile p || fs.binaries.contains p

def FS.pathExists (fs : FS) (p : List String) : Bool :=
  fs.dirs.contains p || fs.isFile p

def FS.content (fs : FS) (p : List String) : Option String :=
  (fs.textFiles.find? (fun q => q.1 = p)).map Prod.snd

/-! ## Association-list helpers (Python `dict` model) -/

def lookupKey {α : Type} (l : List (String × α)) (k : String) : Option α :=
  (l.find? (fun q => q.1 = k)).map Prod.snd

def setKey {α : Type} : List (String × α) → String → α → List (String × α)
  | [], k, v => [(k, v)]
  | (k', v') :: rest, k, v =>
      if k' = k then (k, v) :: rest else (k', v') :: setKey rest k v

/-! ## Codebase index (`reviewer/codebase_indexer.py` data consumed by the
navigation tools; the index itself is pre-built input, per the spec) -/

structure Symbol where
  name : String
  type : String
  file_path : String
  line_number : Nat
  parent : Option String
deriving DecidableEq

inductive FileTreeNode where
  | node (name : String) (children : List FileTreeNode)

def FileTreeNode.name : FileTreeNode → String
  | .node n _ => n

def FileTreeNode.children : FileTreeNode → List FileTreeNode
  | .node _ c => c

structure CodebaseIndex where
  symbols : List (String × List Symbol)
  imports : List (String × List String)
  fileTree : FileTreeNode

structure UsageHit where
  file : String
  line : Nat
  content : String
deriving DecidableEq

/-! ## Navigation sandbox state (`NavigationTools`)

`repoPath` is the repository root (an absolute, already-parsed path);
`cache` is `_file_cache`, keyed by the raw `filepath` string argument.
`usagesOut`/`textOut` are oracles for the parsed output of the external
ripgrep/grep subprocesses run by `find_usages`/`search_text`. -/

structure NavState where
  repoPath : List String
  fs : FS
  index : CodebaseIndex
  cache : List (String × String)
  usagesOut : String → List UsageHit
  textOut : String → Option String → List UsageHit

/-- `NavigationTools.read_file`: cache hit first, then the containment
check — faithfully, the source's `str(full_path).startswith(str(repo_root))`
string-prefix test — then existence, regular-file and decodability checks;
a successful read is cached.  Returns the content or an in-band
`"Error: ..."` string. -/
def readFile (nav : NavState) (filepath : String) : String × NavState :=
  match lookupKey nav.cache filepath with
  | some cached => (cached, nav)
  | none =>
    let fullPath := resolveComps (joinPath nav.repoPath filepath)
    let rootResolved := resolveComps nav.repoPath
    if ¬ strStartsWith (pathStr fullPath) (pathStr rootResolved) then
      ("Error: Access denied - path outside repository: " ++ filepath, nav)
    else if ¬ nav.fs.pathExists fullPath then
      ("Error: File not found: " ++ filepath, nav)
    else if ¬ nav.fs.isFile fullPath then
      ("Error: Not a file: " ++ filepath, nav)
    else
      match nav.fs.content fullPath with
      | some content =>
          (content, { nav with cache := setKey nav.cache filepath content })
      | none =>
          ("Error: Cannot read binary file: " ++ filepath, nav)

/-! ## Import extraction (`NavigationTools.get_imports`)

The source matches, per line (`re.MULTILINE`), the Python pattern
`^\s*(?:from\s+(\S+)\s+)?import\s+(.+)$`, and for JS/TS the patterns
`^\s*import\s+.*?\s+from\s+['"](.+?)['"]` and `require\(['"](.+?)['"]\)`.
The functions below model those regexes by direct character scanning; a line
consisting of `import` followed only by whitespace is treated as no match. -/

def dropWS (l : List Char) : List Char :=
  l.dropWhile Char.isWhitespace

def takeNonWS (l : List Char) : List Char :=
  l.takeWhile (fun c => !c.isWhitespace)

def quoteChar : Char := Char.ofNat 39

/-- `from\s+(\S+)\s+import\s+(.+)$` on a line stripped of leading whitespace:
returns the captured module name. -/
def pyFromImportMod (l : List Char) : Option String :=
  if l.take 4 = "from".data then
    match l.drop 4 with
    | [] => none
    | c :: rest =>
      if c.isWhitespace then
        let r2 := dropWS (c :: rest)
        let modname := takeNonWS r2
        let r3 := r2.drop modname.length
        match r3 with
        | [] => none
        | c2 :: _ =>
          if c2.isWhitespace ∧ modname ≠ [] then
            let r4 := dropWS r3
            if r4.take 6 = "import".data then
              match r4.drop 6 with
              | [] => none
              | c3 :: rest3 =>
                if c3.isWhitespace ∧ dropWS (c3 :: rest3) ≠ [] then
                  some (String.mk modname)
                else none
            else none
          else none
      else none
  else none

/-- `import\s+(.+)$` on a line stripped of leading whitespace: returns the
list `[imp.strip().split(' as ')[0] for imp in group2.split(',')]`. -/
def pyImportNames (l : List Char) : Option (List String) :=
  if l.take 6 = "import".data then
    match l.drop 6 with
    | [] => none
    | c :: rest =>
      if c.isWhitespace then
        let names := dropWS (c :: rest)
        if names = [] then none
        else
          some ((strSplitChar (String.mk names) ',').map
            (fun s => strUpToSeq (strStrip s) " as "))
      else none
  else none

def pyLineImports (line : String) : List String :=
  let l := dropWS line.data
  match pyFromImportMod l with
  | some m => [m]
  | none =>
    match pyImportNames l with
    | some ns => ns
    | none => []

/-- Scan for `\s+from\s+['"](.+?)['"]` (the tail of the ES6 import pattern). -/
def jsScanFrom : List Char → Option String
  | [] => none
  | c :: rest =>
    if c.isWhitespace then
      let r := dropWS (c :: rest)
      if r.take 4 = "from".data then
        match r.drop 4 with
        | [] => jsScanFrom rest
        | c2 :: rest2 =>
          if c2.isWhitespace then
            match dropWS (c2 :: rest2) with
            | [] => jsScanFrom rest
            | q :: rest3 =>
              if q = quoteChar ∨ q = '"' then
                let cap := rest3.takeWhile (fun c => c != q)
                if cap ≠ [] ∧ cap.length < rest3.length then some (String.mk cap)
                else jsScanFrom rest
              else jsScanFrom rest
          else jsScanFrom rest
      else jsScanFrom rest
    else jsScanFrom rest

/-- `^\s*import\s+.*?\s+from\s+['"](.+?)['"]` on one line. -/
def jsEs6Line (line : String) : Option String :=
  let l := dropWS line.data
  if l.take 6 = "import".data then
    match l.drop 6 with
    | [] => none
    | c :: rest => if c.isWhitespace then jsScanFrom rest else none
  else none

/-- `require\(['"](.+?)['"]\)` matches across the whole content
(non-overlapping, as `re.finditer`). -/
def jsRequiresGo : Nat → List Char → List String
  | 0, _ => []
  | _, [] => []
  | fuel + 1, c :: rest =>
    if (c :: rest).take 8 = "require(".data then
      match (c :: rest).drop 8 with
      | [] => jsRequiresGo fuel rest
      | q :: r2 =>
        if q = quoteChar ∨ q = '"' then
          let cap := r2.takeWhile (fun c => c != q)
          if cap ≠ [] ∧ cap.length < r2.length ∧ (r2.drop (cap.length + 1)).take 1 = [')'] then
            String.mk cap :: jsRequiresGo fuel (r2.drop (cap.length + 2))
          else jsRequiresGo fuel rest
        else jsRequiresGo fuel rest
    else jsRequiresGo fuel rest

def jsRequires (l : List Char) : List String :=
  jsRequiresGo l.length l

def endsWithAnyJs (filepath : String) : Bool :=
  strEndsWith filepath ".js" || strEndsWith filepath ".ts" ||
  strEndsWith filepath ".jsx" || strEndsWith filepath ".tsx"

/-- `NavigationTools.get_imports`: the pre-built index wins; otherwise the file
is read through `read_file` and any result starting with `"Error:"` yields
nothing.  Python's order-insensitive `list(set(imports))` deduplication is
modelled by `List.dedup`. -/
def getImports (nav : NavState) (filepath : String) : List String × NavState :=
  match lookupKey nav.index.imports filepath with
  | some l => (l, nav)
  | none =>
    let (content, nav') := readFile nav filepath
    if strStartsWith content "Error:" then ([], nav')
    else if strEndsWith filepath ".py" then
      (((strSplitChar content '\n').map pyLineImports).flatten.dedup, nav')
    else if endsWithAnyJs filepath then
      ((((strSplitChar content '\n').filterMap jsEs6Line) ++ jsRequires content.data).dedup, nav')
    else ([], nav')

/-! ## Symbol / text search (`NavigationTools`) -/

structure SymbolHit where
  name : String
  type : String
  file : String
  line : Nat
  parent : Option String
deriving DecidableEq

/-- `NavigationTools.search_symbol`: pure lookup against the pre-built index. -/
def searchSymbol (nav : NavState) (symbolName : String) : List SymbolHit :=
  match lookupKey nav.index.symbols symbolName with
  | some syms => syms.map (fun s => ⟨s.name, s.type, s.file_path, s.line_number, s.parent⟩)
  | none => []

/-- `NavigationTools.find_usages`: the ripgrep/grep subprocess is an oracle;
the source caps the parsed matches at 100. -/
def findUsages (nav : NavState) (symbolName : String) : List UsageHit :=
  (nav.usagesOut symbolName).take 100

/-- `NavigationTools.search_text`: oracle-backed like `find_usages`; the
source caps matches at 100 output lines. -/
def searchText (nav : NavState) (pat : String) (filePat : Option String) : List UsageHit :=
  (nav.textOut pat filePat).take 100

/-! ## File tree rendering (`NavigationTools.get_file_tree`) -/

mutual

def buildTreeLines (n : FileTreeNode) (pre : String) (isLast : Bool) : List String :=
  match n with
  | .node name children =>
    let connector := if isLast then "└── " else "├── "
    let extension := if isLast then "    " else "│   "
    (pre ++ connector ++ name) :: treeChildLines children (pre ++ extension)

def treeChildLines : List FileTreeNode → String → List String
  | [], _ => []
  | [c], pre => buildTreeLines c pre true
  | c :: c2 :: rest, pre => buildTreeLines c pre false ++ treeChildLines (c2 :: rest) pre

end

def getFileTree (nav : NavState) : String :=
  strIntercalate "\n"
    (nav.index.fileTree.name :: treeChildLines nav.index.fileTree.children "")

/-! ## Tool results and Python `str()` previews

`review_code` stores `str(result)[:200]` previews in the navigation history.
`pyStr` renders results in Python-`str` style (dict/list rendering follows
insertion order; exact `repr` quoting of exotic strings is not load-bearing
for any claim). -/

def pyQuoted (s : String) : String :=
  String.mk [quoteChar] ++ s ++ String.mk [quoteChar]

def pyListRepr (items : List String) : String :=
  "[" ++ strIntercalate ", " items ++ "]"

def symHitRepr (h : SymbolHit) : String :=
  "\x7b" ++ pyQuoted "name" ++ ": " ++ pyQuoted h.name ++ ", " ++
    pyQuoted "type" ++ ": " ++ pyQuoted h.type ++ ", " ++
    pyQuoted "file" ++ ": " ++ pyQuoted h.file ++ ", " ++
    pyQuoted "line" ++ ": " ++ toString h.line ++ ", " ++
    pyQuoted "parent" ++ ": " ++
    (match h.parent with | none => "None" | some p => pyQuoted p) ++ "\x7d"

def usageHitRepr (h : UsageHit) : String :=
  "\x7b" ++ pyQuoted "file" ++ ": " ++ pyQuoted h.file ++ ", " ++
    pyQuoted "line" ++ ": " ++ toString h.line ++ ", " ++
    pyQuoted "content" ++ ": " ++ pyQuoted h.content ++ "\x7d"

inductive ToolResult where
  | str (s : String)
  | symbols (l : List SymbolHit)
  | usages (l : List UsageHit)
  | imports (l : List String)
deriving DecidableEq

def ToolResult.pyStr : ToolResult → String
  | .str s => s
  | .symbols l => pyListRepr (l.map symHitRepr)
  | .usages l => pyListRepr (l.map usageHitRepr)
  | .imports l => pyListRepr (l.map pyQuoted)

/-- `str(result)[:200] + '...' if len(str(result)) > 200 else str(result)`. -/
def resultPreview (r : ToolResult) : String :=
  let s := r.pyStr
  if 200 < strLen s then (strTake s 200) ++ "..." else s

/-! ## `GeminiClient._execute_function`

Tool calls carry a name and a keyword-argument dict.  The dispatch map holds
exactly the six navigation operations; an unknown name raises
`ValueError(f"Unknown function: {function_name}")`, which the loop catches as
a per-call error string.  A keyword-argument mismatch raises `TypeError`
(message abbreviated here), likewise caught. -/

structure FuncCall where
  name : String
  args : List (String × String)
deriving DecidableEq

instance {ε α : Type} [DecidableEq ε] [DecidableEq α] : DecidableEq (Except ε α)
  | .ok a, .ok b =>
      if h : a = b then .isTrue (by rw [h]) else .isFalse (by intro hh; cases hh; exact h rfl)
  | .ok _, .error _ => .isFalse (by intro h; cases h)
  | .error _, .ok _ => .isFalse (by intro h; cases h)
  | .error e, .error f =>
      if h : e = f then .isTrue (by rw [h]) else .isFalse (by intro hh; cases hh; exact h rfl)

structure FuncResponse where
  name : String
  response : Except String ToolResult
deriving DecidableEq

def getReqArg (fname : String) (args : List (String × String)) (key : String)
    (allowed : List String) : Except String String :=
  if !args.all (fun p => allowed.contains p.1) then
    .error (fname ++ "() got an unexpected keyword argument")
  else
    match lookupKey args key with
    | some v => .ok v
    | none => .error (fname ++ "() missing 1 required positional argument: " ++ pyQuoted key)

def executeFunction (nav : NavState) (fc : FuncCall) : Except String (ToolResult × NavState) :=
  match fc.name with
  | "read_file" => do
      let fp ← getReqArg "read_file" fc.args "filepath" ["filepath"]
      let r := readFile nav fp
      return (.str r.1, r.2)
  | "search_symbol" => do
      let s ← getReqArg "search_symbol" fc.args "symbol_name" ["symbol_name"]
      return (.symbols (searchSymbol nav s), nav)
  | "find_usages" => do
      let s ← getReqArg "find_usages" fc.args "symbol_name" ["symbol_name"]
      return (.usages (findUsages nav s), nav)
  | "get_imports" => do
      let fp ← getReqArg "get_imports" fc.args "filepath" ["filepath"]
      let r := getImports nav fp
      return (.imports r.1, r.2)
  | "get_file_tree" =>
      if fc.args = [] then .ok (.str (getFileTree nav), nav)
      else .error "get_file_tree() got an unexpected keyword argument"
  | "search_text" => do
      let p ← getReqArg "search_text" fc.args "pattern" ["pattern", "file_pattern"]
      return (.usages (searchText nav p (lookupKey fc.args "file_pattern")), nav)
  | other => .error ("Unknown function: " ++ other)

/-! ## The tool-calling loop (`GeminiClient.review_code`)

The remote reasoning agent is a deterministic scripted handle: `script k` is
the response to the `k`-th outbound message (`script 0` answers the initial
context, `script (k+1)` answers the `k`-th batch of tool results).  One
response carries the requested tool calls, the text content, and the optional
usage metadata. -/

structure Usage where
  promptTokens : Option Nat
  candidatesTokens : Option Nat
  totalTokens : Option Nat
deriving DecidableEq

structure Response where
  functionCalls : List FuncCall
  text : String
  usage : Option Usage
deriving DecidableEq

def Script : Type := Nat → Response

/-- `getattr(response.usage_metadata, 'prompt_token_count', 0) or 0`,
guarded by `hasattr(response, 'usage_metadata')`. -/
def inTok (r : Response) : Nat :=
  match r.usage with
  | none => 0
  | some u => u.promptTokens.getD 0

def outTok (r : Response) : Nat :=
  match r.usage with
  | none => 0
  | some u => u.candidatesTokens.getD 0

def totTok (r : Response) : Nat :=
  match r.usage with
  | none => 0
  | some u => u.totalTokens.getD 0

structure HistEntry where
  function : String
  args : List (String × String)
  result_preview : String
deriving DecidableEq

structure NavSummary where
  total_files_explored : Nat
  symbols_searched : Nat
  total_navigation_calls : Nat
deriving DecidableEq

structure TokenDetails where
  input_tokens : Nat
  output_tokens : Nat
  total_tokens : Nat
deriving DecidableEq

structure ReviewResult where
  review_content : String
  navigation_history : List HistEntry
  iterations : Nat
  navigation_summary : NavSummary
  token_details : TokenDetails
deriving DecidableEq

def mkSummary (hist : List HistEntry) : NavSummary :=
  ⟨(hist.filter (fun h => h.function = "read_file")).length,
   (hist.filter (fun h => h.function = "search_symbol" ∨ h.function = "find_usages")).length,
   hist.length⟩

def finalizeReview (resp : Response) (iters : Nat) (hist : List HistEntry)
    (aIn aOut aTot : Nat) : ReviewResult :=
  ⟨resp.text, hist, iters, mkSummary hist, ⟨aIn, aOut, aTot⟩⟩

/-- One `ExecutingTools` phase: run every requested call in order; a
successful call is recorded in the navigation history and its result packaged,
a failing call contributes a per-call error response and leaves the sandbox
state untouched — the remaining calls still run. -/
def execCalls (nav : NavState) (hist : List HistEntry) :
    List FuncCall → List FuncResponse × NavState × List HistEntry
  | [] => ([], nav, hist)
  | fc :: rest =>
    match executeFunction nav fc with
    | .ok (res, nav') =>
        let entry : HistEntry := ⟨fc.name, fc.args, resultPreview res⟩
        let (frs, nav'', hist'') := execCalls nav' (hist ++ [entry]) rest
        (⟨fc.name, .ok res⟩ :: frs, nav'', hist'')
    | .error e =>
        let (frs, nav', hist') := execCalls nav hist rest
        (⟨fc.name, .error e⟩ :: frs, nav', hist')

/-- The iterative loop body of `review_code`: `fuel = max_iterations - iterations`
counts the remaining budget of the `while iterations < max_iterations` loop. -/
def goReview (script : Script) :
    Nat → Nat → Response → NavState → List HistEntry → Nat → Nat → Nat → ReviewResult
  | 0, iters, resp, _, hist, aIn, aOut, aTot =>
      finalizeReview resp iters hist aIn aOut aTot
  | fuel + 1, iters, resp, nav, hist, aIn, aOut, aTot =>
      if resp.functionCalls = [] then
        finalizeReview resp iters hist aIn aOut aTot
      else
        let step := execCalls nav hist resp.functionCalls
        let resp' := script (iters + 1)
        goReview script fuel (iters + 1) resp' step.2.1 step.2.2
          (aIn + inTok resp') (aOut + outTok resp') (aTot + totTok resp')

/-- `GeminiClient.review_code` over a scripted agent handle: send the initial
context, accumulate usage, then iterate tool execution until the response has
no tool calls or the iteration budget is spent. -/
def reviewCode (script : Script) (maxIterations : Nat) (nav : NavState) : ReviewResult :=
  let r0 := script 0
  goReview script maxIterations 0 r0 nav [] (inTok r0) (outTok r0) (totTok r0)

/-- Control-flow skeleton of the loop: the iteration count at termination,
which depends only on which scripted responses request tool calls. -/
def loopItersGo (script : Script) : Nat → Nat → Nat
  | 0, iters => iters
  | fuel + 1, iters =>
      if (script iters).functionCalls = [] then iters
      else loopItersGo script fuel (iters + 1)

def loopIters (script : Script) (maxIterations : Nat) : Nat :=
  loopItersGo script maxIterations 0

/-- The run stopped because the iteration counter reached `maxIterations`
while the model was still requesting tool calls (as opposed to a clean
model-initiated termination with a call-free response). -/
def budgetExhausted (script : Script) (maxIterations : Nat) : Prop :=
  loopIters script maxIterations = maxIterations ∧ (script maxIterations).functionCalls ≠ []

instance (script : Script) (m : Nat) : Decidable (budgetExhausted script m) := by
  unfold budgetExhausted; infer_instance

/-! ## Token-bucket rate limiter (`reviewer/rate_limiter.py`)

Python float arithmetic is modelled over `ℚ`; `time.monotonic()` is
externalized: each locked critical section receives the non-negative elapsed
time `e` since `last_update`.  `acquire`'s retry loop receives one elapsed
value per wake-up and tracks the time spent against the timeout budget. -/

structure RL where
  rpm : ℚ
  burst : ℚ
  tokens : ℚ
deriving DecidableEq

/-- `RateLimiter.__init__`: `self.burst = burst or rpm` (Python `or`: a `0`
burst falls back to `rpm`), `self.tokens = float(self.burst)`. -/
def RL.init (rpm : Int) (b : Option Int) : RL :=
  let burst : Int := match b with | none => rpm | some x => if x = 0 then rpm else x
  ⟨(rpm : ℚ), (burst : ℚ), (burst : ℚ)⟩

/-- The refill step shared by all three methods:
`tokens = min(burst, tokens + elapsed * rpm / 60)`. -/
def RL.refill (s : RL) (e : ℚ) : RL :=
  { s with tokens := min s.burst (s.tokens + e * s.rpm / 60) }

/-- `RateLimiter.try_acquire`: refill, then decrement by one exactly when at
least one token is available. -/
def RL.tryAcquire (s : RL) (e : ℚ) : Bool × RL :=
  let s' := s.refill e
  if 1 ≤ s'.tokens then (true, { s' with tokens := s'.tokens - 1 }) else (false, s')

/-- `RateLimiter.available_tokens`: observation only, no mutation. -/
def RL.availableTokens (s : RL) (e : ℚ) : ℚ :=
  min s.burst (s.tokens + e * s.rpm / 60)

/-- `RateLimiter.acquire`'s retry loop: one elapsed value per pass through the
lock; on an empty elapsed list the caller is still sleeping (unreached in the
claims, which deal in finite call sequences). -/
def RL.acquireGo : List ℚ → RL → ℚ → ℚ → Bool × RL
  | [], s, _, _ => (false, s)
  | e :: rest, s, timeout, spent =>
    let s' := s.refill e
    if 1 ≤ s'.tokens then (true, { s' with tokens := s'.tokens - 1 })
    else
      let wait := (1 - s'.tokens) * 60 / s.rpm
      if timeout < spent + e + wait then (false, s')
      else RL.acquireGo rest s' timeout (spent + e + wait)

def RL.acquire (s : RL) (timeout : ℚ) (es : List ℚ) : Bool × RL :=
  RL.acquireGo es s timeout 0

inductive RLOp where
  | tryAcq (e : ℚ)
  | acq (timeout : ℚ) (es : List ℚ)
  | avail (e : ℚ)

/-- All elapsed times carried by the operation are non-negative (monotonic
clock). -/
def RLOp.nonneg : RLOp → Prop
  | .tryAcq e => 0 ≤ e
  | .acq _ es => ∀ e ∈ es, 0 ≤ e
  | .avail e => 0 ≤ e

def RL.runOp (s : RL) : RLOp → RL
  | .tryAcq e => (s.tryAcquire e).2
  | .acq t es => (s.acquire t es).2
  | .avail _ => s

def RL.runOps (s : RL) (ops : List RLOp) : RL :=
  ops.foldl RL.runOp s

/-- The bucket invariant: non-negative refill rate and
`0 ≤ tokens ≤ burst`. -/
def RL.Inv (s : RL) : Prop :=
  0 ≤ s.rpm ∧ 0 ≤ s.tokens ∧ s.tokens ≤ s.burst

instance (s : RL) : Decidable s.Inv := by
  unfold RL.Inv; infer_instance

/-! ## Model rate-limit registry (`ModelRateLimits`, `RateLimitManager`)

Python object identity of the memoized `RateLimiter` instances is modelled by
allocation identifiers: `get_limiter` returns the stored identifier when the
canonical key is present and allocates a fresh one otherwise. -/

def TIER_1_LIMITS : List (String × Int) :=
  [("gemini-2.5-pro", 150),
   ("gemini-2.5-flash", 1000),
   ("gemini-2.0-flash", 2000),
   ("gemini-2.0-flash-lite", 4000)]

def DEFAULT_LIMIT : Int := 100

def DEFAULT_CANONICAL_KEY : String := "default_unknown_model"

/-- Stable insertion by descending key length, mirroring
`sorted(items, key=lambda item: len(item[0]), reverse=True)`. -/
def insertByLenDesc (p : String × Int) : List (String × Int) → List (String × Int)
  | [] => [p]
  | q :: rest =>
      if q.1.length ≤ p.1.length then p :: q :: rest else q :: insertByLenDesc p rest

def sortByLenDesc (l : List (String × Int)) : List (String × Int) :=
  l.foldr insertByLenDesc []

/-- `ModelRateLimits.get_rpm_and_prefix`: case-fold, exact match, then the
longest known prefix, else the one shared default key. -/
def getRpmAndPrefix (modelName : String) (tier : String) : Except String (Int × String) :=
  if tier ≠ "tier1" then .error ("Unsupported tier: " ++ tier)
  else
    let modelLower := strLower modelName
    match lookupKey TIER_1_LIMITS modelLower with
    | some limit => .ok (limit, modelLower)
    | none =>
      match (sortByLenDesc TIER_1_LIMITS).find? (fun q => strStartsWith modelLower q.1) with
      | some q => .ok (q.2, q.1)
      | none => .ok (DEFAULT_LIMIT, DEFAULT_CANONICAL_KEY)

structure RateLimitManager where
  entries : List (String × Nat)
  limiters : List (Nat × RL)
  nextId : Nat
deriving DecidableEq

def emptyManager : RateLimitManager := ⟨[], [], 0⟩

/-- `RateLimitManager.get_limiter`: memoized per `f"{tier}:{canonical_model}"`
key; a miss creates `RateLimiter(rpm)` (fresh identity). -/
def getLimiter (m : RateLimitManager) (modelName : String) (tier : String) :
    Except String (Nat × RateLimitManager) :=
  match getRpmAndPrefix modelName tier with
  | .error e => .error e
  | .ok (rpm, canonical) =>
    let key := tier ++ ":" ++ canonical
    match lookupKey m.entries key with
    | some id => .ok (id, m)
    | none =>
        .ok (m.nextId,
             ⟨m.entries ++ [(key, m.nextId)],
              m.limiters ++ [(m.nextId, RL.init rpm none)],
              m.nextId + 1⟩)

def canonKeyOf (modelName : String) (tier : String) : Option String :=
  (getRpmAndPrefix modelName tier).toOption.map (fun p => tier ++ ":" ++ p.2)

def limiterIdOf (m : RateLimitManager) (modelName : String) : Option Nat :=
  (getLimiter m modelName "tier1").toOption.map Prod.fst

def mgrStep (m : RateLimitManager) (n : String) : RateLimitManager :=
  match getLimiter m n "tier1" with
  | .ok p => p.2
  | .error _ => m

def runGets (names : List String) (m : RateLimitManager) : RateLimitManager :=
  names.foldl mgrStep m

/-! ## Session-store service (`reviewer/service.py`)

Timestamps are seconds (`ℕ`); prompt building and the remote review run are
deterministic oracles in the environment (the spec excludes prompt-template
text generation and the reasoning model's output from the core).  The session
map is the `active_sessions` dict, keyed by
`f"{str(project_root)}:{request.session_name}"`. -/

structure SessionRec where
  iteration : Nat
  createdAt : Nat
  lastReviewed : Nat
  lastIssues : Option Nat
  modelName : String
  chatHistoryLen : Nat
deriving DecidableEq

structure SessionInfoM where
  name : String
  status : String
  iteration : Nat
  createdAt : Nat
  lastReviewed : Nat
  chatMessagesCount : Nat
  previousIssuesCount : Option Nat
deriving DecidableEq

structure ReviewReq where
  sessionName : String
  projectRoot : String
  modelName : String
deriving DecidableEq

structure ServerEnv where
  resolveStrict : String → Option (List String)
  isDir : List String → Bool
  home : String
  tempDir : String
  buildContext : ReviewReq → String
  reviewFor : String → String

/-- Python `str.count` (non-overlapping occurrences) for a non-empty needle. -/
def countOccGo (pat : List Char) : Nat → List Char → Nat
  | 0, _ => 0
  | _, [] => 0
  | fuel + 1, c :: rest =>
      if pat.isPrefixOf (c :: rest) then 1 + countOccGo pat fuel ((c :: rest).drop pat.length)
      else countOccGo pat fuel rest

def countOcc (s pat : String) : Nat :=
  if pat.data = [] then 0 else countOccGo pat.data s.data.length s.data

/-- `ReviewerService.count_issues_in_review`. -/
def countIssues (reviewContent : String) : Nat :=
  (["ISSUE:", "ERROR:", "WARNING:", "FILE:", "Line:"].map
    (fun marker => countOcc reviewContent marker)).sum

/-- `ReviewerService.format_time_ago` (the `not dt` branch is unreachable:
the session always carries timestamps). -/
def formatTimeAgo (now dt : Nat) : String :=
  let delta := now - dt
  if delta < 60 then "just now"
  else if delta < 3600 then
    let m := delta / 60
    toString m ++ " minute" ++ (if m ≠ 1 then "s" else "") ++ " ago"
  else if delta < 86400 then
    let h := delta / 3600
    toString h ++ " hour" ++ (if h ≠ 1 then "s" else "") ++ " ago"
  else
    let d := delta / 86400
    toString d ++ " day" ++ (if d ≠ 1 then "s" else "") ++ " ago"

/-- `ReviewerService.build_continuation_context` (note: Python's
`if session.get('last_issues_count')` is falsy for both `None` and `0`). -/
def buildContinuationContext (session : SessionRec) (originalContext : String)
    (iteration : Nat) (now : Nat) : String :=
  let header := ["🔄 Continuing review session (iteration " ++ toString iteration ++ ")",
                 "📅 Last reviewed: " ++ formatTimeAgo now session.lastReviewed,
                 ""]
  let issuesParts :=
    match session.lastIssues with
    | some n =>
        if n ≠ 0 then
          ["In our last review, we found " ++ toString n ++ " issues.",
           "Let me check what has changed since then.", ""]
        else []
    | none => []
  strIntercalate "\n" (header ++ issuesParts ++ [originalContext])

def sessionKey (rootStr name : String) : String :=
  rootStr ++ ":" ++ name

/-- The `SECURITY` block at the top of `ReviewerService.handle_review`:
`Path(project_root).resolve(strict=True)`, the directory check, and the
safe-boundary allow-list of string prefixes. -/
def validateProjectRoot (env : ServerEnv) (projectRoot : String) : Except String (List String) :=
  match env.resolveStrict projectRoot with
  | none => .error "No such file or directory"
  | some comps =>
    if !env.isDir comps then .error "Path is not a directory"
    else
      let s := pathStr comps
      let safeList := [env.home, env.tempDir, "/tmp", "/var/folders", "/private/var/folders"]
      if safeList.any (fun p => strStartsWith s p) then .ok comps
      else .error "Project path is outside safe boundaries"

/-- `ReviewerService.handle_review`: validate the root, build the composite
session key, create or continue the session, run the review through the
session's client, record the issue count, and report session metadata.  The
review oracle is total (an exception inside the review would surface after
the session mutation, which no claim depends on). -/
def handleReview (env : ServerEnv) (now : Nat) (st : List (String × SessionRec))
    (req : ReviewReq) :
    Except String (SessionInfoM × String) × List (String × SessionRec) :=
  match validateProjectRoot env req.projectRoot with
  | .error e => (.error ("Invalid project_root: " ++ e), st)
  | .ok rootComps =>
    let rootStr := pathStr rootComps
    let key := sessionKey rootStr req.sessionName
    match lookupKey st key with
    | none =>
      let baseCtx := env.buildContext req
      let content := env.reviewFor baseCtx
      let sess : SessionRec := ⟨1, now, now, some (countIssues content), req.modelName, 0⟩
      (.ok (⟨req.sessionName, "new", 1, now, now, 0, none⟩, content),
       setKey st key sess)
    | some s =>
      let s' : SessionRec := { s with iteration := s.iteration + 1, lastReviewed := now }
      let baseCtx := env.buildContext req
      let ctx := buildContinuationContext s' baseCtx s'.iteration now
      let content := env.reviewFor ctx
      let s'' : SessionRec := { s' with lastIssues := some (countIssues content) }
      (.ok (⟨req.sessionName, "continued", s'.iteration, s.createdAt, now,
            s.chatHistoryLen, s.lastIssues⟩, content),
       setKey st key s'')

/-- The composite key `handleReview` would touch for a request, when the root
validates. -/
def requestKey (env : ServerEnv) (req : ReviewReq) : Option String :=
  (validateProjectRoot env req.projectRoot).toOption.map
    (fun comps => sessionKey (pathStr comps) req.sessionName)

/-! ## Concrete instances used by witnesses and counterexamples -/

/-- A filesystem with repository root `/home/user/repo` and a sibling
directory `/home/user/repo2` whose name extends the root's final component. -/
def fsSibling : FS :=
  { dirs := [[], ["home"], ["home", "user"], ["home", "user", "repo"], ["home", "user", "repo2"]],
    textFiles := [(["home", "user", "repo", "main.py"], "print(1)\n"),
                  (["home", "user", "repo2", "secret.txt"], "TOP-SECRET\n")],
    binaries := [] }

def emptyIndex : CodebaseIndex :=
  ⟨[], [], .node "repo" []⟩

def navSibling : NavState :=
  ⟨["home", "user", "repo"], fsSibling, emptyIndex, [], fun _ => [], fun _ _ => []⟩

/-- A repository containing a readable file whose genuine content begins with
`Error:` and then declares an import. -/
def fsErrorFile : FS :=
  { dirs := [[], ["repo"]],
    textFiles := [(["repo", "weird.py"], "Error: sample text\nimport foo\n")],
    binaries := [] }

def navErrorFile : NavState :=
  ⟨["repo"], fsErrorFile, emptyIndex, [], fun _ => [], fun _ _ => []⟩

/-- An empty sandbox over root `/repo`. -/
def navEmpty : NavState :=
  ⟨["repo"], ⟨[[], ["repo"]], [], []⟩, emptyIndex, [], fun _ => [], fun _ _ => []⟩

/-- A scripted response requesting one tool call and carrying no text/usage. -/
def respCall : Response :=
  ⟨[⟨"search_symbol", [("symbol_name", "Foo")]⟩], "", none⟩

def respFinal (t : String) : Response :=
  ⟨[], t, none⟩

/-- Scripted handle requesting tool calls for exactly 3 turns, then a final
answer. -/
def scriptThree : Script :=
  fun i => if i < 3 then respCall else respFinal "done"

/-- Scripted handle that never stops requesting tool calls. -/
def scriptForever : Script :=
  fun _ => respCall

/-- Scripted handle requesting tool calls for exactly 2 turns, then a clean
(empty-text) final answer. -/
def scriptStops2 : Script :=
  fun i => if i < 2 then respCall else respFinal ""

/-- A turn with one unknown tool name followed by a known call. -/
def callsMixed : List FuncCall :=
  [⟨"bogus_tool", []⟩, ⟨"search_symbol", [("symbol_name", "Foo")]⟩]

/-- Scripted handle whose first turn contains an unknown tool name. -/
def scriptUnknownTool : Script :=
  fun i => if i = 0 then ⟨callsMixed, "", none⟩ else respFinal "done"

/-- A script with assorted usage metadata (present, missing fields, absent). -/
def scriptUsage : Script :=
  fun i =>
    if i = 0 then ⟨[⟨"get_file_tree", []⟩], "", some ⟨some 11, some 5, some 16⟩⟩
    else if i = 1 then ⟨[⟨"get_file_tree", []⟩], "", some ⟨none, some 2, none⟩⟩
    else ⟨[], "done", none⟩

/-- Rate-limiter operation sequence for the invariant witness. -/
def opsSample : List RLOp :=
  [.tryAcq 0, .tryAcq 0, .tryAcq 0, .avail (1/2), .acq 60 [1/2], .tryAcq 10]

def mgrA : RateLimitManager := mgrStep emptyManager "gemini-2.5-pro"

def mgrB : RateLimitManager := mgrStep mgrA "totally-unknown-model-a"

/-- Service environment with two sibling project directories under the home
boundary, one of whose names contains a colon (legal in POSIX), and constant
prompt/review oracles. -/
def envHome : ServerEnv :=
  { resolveStrict := fun s =>
      if s = "/home/user/proj" then some ["home", "user", "proj"]
      else if s = "/home/user/proj:alpha" then some ["home", "user", "proj:alpha"]
      else none,
    isDir := fun p =>
      [["home", "user", "proj"], ["home", "user", "proj:alpha"]].contains p,
    home := "/home/user",
    tempDir := "/tmp",
    buildContext := fun _ => "CTX",
    reviewFor := fun _ => "LGTM" }

/-- Request for project root `/home/user/proj:alpha`, session name `x`. -/
def reqColonRoot : ReviewReq :=
  ⟨"x", "/home/user/proj:alpha", "gemini-2.5-pro"⟩

/-- Request for the distinct project root `/home/user/proj`, session name
`alpha:x`. -/
def reqColonName : ReviewReq :=
  ⟨"alpha:x", "/home/user/proj", "gemini-2.5-pro"⟩

/-- Environment where nothing resolves (invalid project roots). -/
def envNoFS : ServerEnv :=
  { resolveStrict := fun _ => none,
    isDir := fun _ => false,
    home := "/home/user",
    tempDir := "/tmp",
    buildContext := fun _ => "CTX",
    reviewFor := fun _ => "LGTM" }

def reqBad : ReviewReq :=
  ⟨"x", "/does/not/exist", "gemini-2.5-pro"⟩

/-- The names in `_execute_function`'s dispatch map. -/
def knownToolNames : List String :=
  ["read_file", "search_symbol", "find_usages", "get_imports", "get_file_tree", "search_text"]

/-! # Theorems -/

/-! ## Generic list/association-list lemmas -/

theorem lookupKey_nil {α : Type} (k : String) : lookupKey ([] : List (String × α)) k = none :=
  rfl

theorem lookupKey_cons {α : Type} (p : String × α) (rest : List (String × α)) (k : String) :
    lookupKey (p :: rest) k = if p.1 = k then some p.2 else lookupKey rest k := by
  unfold lookupKey
  by_cases h : p.1 = k
  · rw [List.find?_cons_of_pos _ (by simp [h])]
    simp [h]
  · rw [List.find?_cons_of_neg _ (by simp [h])]
    simp [h]

theorem lookupKey_setKey_self {α : Type} (l : List (String × α)) (k : String) (v : α) :
    lookupKey (setKey l k v) k = some v := by
  induction l with
  | nil => simp [setKey, lookupKey_cons, lookupKey_nil]
  | cons p rest ih =>
    by_cases h : p.1 = k
    · simp [setKey, h, lookupKey_cons]
    · simp [setKey, h, lookupKey_cons, ih]

theorem lookupKey_setKey_ne {α : Type} (l : List (String × α)) (k k' : String) (v : α)
    (h : k' ≠ k) : lookupKey (setKey l k v) k' = lookupKey l k' := by
  have h' : k ≠ k' := fun hh => h hh.symm
  induction l with
  | nil => simp [setKey, lookupKey_cons, lookupKey_nil, h']
  | cons p rest ih =>
    by_cases hp : p.1 = k
    · simp [setKey, hp, lookupKey_cons, h']
    · by_cases hp' : p.1 = k'
      · simp [setKey, hp, lookupKey_cons, hp', h]
      · simp [setKey, hp, lookupKey_cons, hp', ih]

theorem lookupKey_append_of_some {α : Type} (l l' : List (String × α)) (k : String) (v : α)
    (h : lookupKey l k = some v) : lookupKey (l ++ l') k = some v := by
  induction l with
  | nil => simp [lookupKey_nil] at h
  | cons p rest ih =>
    by_cases hp : p.1 = k
    · rw [lookupKey_cons, if_pos hp] at h
      rw [List.cons_append, lookupKey_cons, if_pos hp]
      exact h
    · rw [lookupKey_cons, if_neg hp] at h
      rw [List.cons_append, lookupKey_cons, if_neg hp]
      exact ih h

theorem lookupKey_append_of_none {α : Type} (l : List (String × α)) (k : String) (v : α)
    (h : lookupKey l k = none) : lookupKey (l ++ [(k, v)]) k = some v := by
  induction l with
  | nil => simp [lookupKey_cons, lookupKey_nil]
  | cons p rest ih =>
    by_cases hp : p.1 = k
    · rw [lookupKey_cons, if_pos hp] at h
      cases h
    · rw [lookupKey_cons, if_neg hp] at h
      rw [List.cons_append, lookupKey_cons, if_neg hp]
      exact ih h

/-! ## C1 — sandbox containment of `read_file` -/

/-- C1: the claim fails on the code.  `read_file`'s containment check is a
string-prefix test, so from root `/home/user/repo` the traversal
`../repo2/secret.txt` resolves to the sibling directory `/home/user/repo2`
— not a descendant of the root — yet the full secret content is returned.
A non-prefix traversal (`../../etc/passwd`) is denied as the claim expects. -/
theorem C1_readFile_sibling_escape :
    (readFile navSibling "../repo2/secret.txt").1 = "TOP-SECRET\n" ∧
    ¬ isDescendantOf (resolveComps (joinPath navSibling.repoPath "../repo2/secret.txt"))
      (resolveComps navSibling.repoPath) ∧
    (readFile navSibling "../../etc/passwd").1 =
      "Error: Access denied - path outside repository: ../../etc/passwd" :=
  ⟨rfl, by decide, rfl⟩

/-! ## C10 — `get_imports` on in-band `Error:` results -/

/-- C10: for any filepath missing from the import index whose `read_file`
result starts with `"Error:"`, `get_imports` returns the empty list — and in
particular a readable in-root file whose genuine content begins with
`"Error:"` yields `[]` even though parsing that content would produce a
nonempty import list. -/
theorem C10_error_prefix_imports :
    (∀ (nav : NavState) (fp : String),
        lookupKey nav.index.imports fp = none →
        strStartsWith (readFile nav fp).1 "Error:" = true →
        (getImports nav fp).1 = []) ∧
    (readFile navErrorFile "weird.py").1 = "Error: sample text\nimport foo\n" ∧
    (getImports navErrorFile "weird.py").1 = [] ∧
    ((strSplitChar "Error: sample text\nimport foo\n" '\n').map pyLineImports).flatten.dedup
      = ["foo"] := by
  refine ⟨?_, rfl, rfl, by decide⟩
  intro nav fp h1 h2
  unfold getImports
  rw [h1]
  rcases hr : readFile nav fp with ⟨content, nav2⟩
  rw [hr] at h2
  simp only at h2
  simp [h2]

/-- C10 witness: the universal part applied at the concrete sandbox. -/
theorem C10_witness : (getImports navErrorFile "weird.py").1 = [] :=
  C10_error_prefix_imports.1 navErrorFile "weird.py" rfl rfl

/-! ## Loop lemmas shared by the tool-calling-loop claims -/

theorem loopItersGo_ge (script : Script) :
    ∀ (fuel i : Nat), i ≤ loopItersGo script fuel i := by
  intro fuel
  induction fuel with
  | zero => intro i; exact Nat.le_refl i
  | succ f ih =>
    intro i
    by_cases h : (script i).functionCalls = []
    · simp [loopItersGo, h]
    · calc i ≤ i + 1 := Nat.le_succ i
        _ ≤ loopItersGo script f (i + 1) := ih (i + 1)
        _ = loopItersGo script (f + 1) i := by simp [loopItersGo, h]

theorem loopItersGo_all (script : Script) :
    ∀ (fuel i : Nat), (∀ k, i ≤ k → k < i + fuel → (script k).functionCalls ≠ []) →
      loopItersGo script fuel i = i + fuel := by
  intro fuel
  induction fuel with
  | zero => intro i _; rfl
  | succ f ih =>
    intro i h
    have hi : (script i).functionCalls ≠ [] := h i (Nat.le_refl i) (by omega)
    have := ih (i + 1) (fun k hk1 hk2 => h k (by omega) (by omega))
    simp [loopItersGo, hi]
    omega

theorem loopItersGo_stops (script : Script) :
    ∀ (fuel i j : Nat), i ≤ j → j ≤ i + fuel →
      (∀ k, i ≤ k → k < j → (script k).functionCalls ≠ []) →
      (script j).functionCalls = [] →
      loopItersGo script fuel i = j := by
  intro fuel
  induction fuel with
  | zero =>
    intro i j h1 h2 _ _
    have : i = j := by omega
    simp [loopItersGo, this]
  | succ f ih =>
    intro i j h1 h2 hcalls hstop
    by_cases hij : i = j
    · subst hij
      simp [loopItersGo, hstop]
    · have hi : (script i).functionCalls ≠ [] := hcalls i (Nat.le_refl i) (by omega)
      have := ih (i + 1) j (by omega) (by omega) (fun k hk1 hk2 => hcalls k (by omega) hk2) hstop
      simp [loopItersGo, hi]
      exact this

theorem goReview_iterations (script : Script) :
    ∀ (fuel i : Nat) (nav : NavState) (hist : List HistEntry) (a b c : Nat),
      (goReview script fuel i (script i) nav hist a b c).iterations = loopItersGo script fuel i := by
  intro fuel
  induction fuel with
  | zero => intro i nav hist a b c; rfl
  | succ f ih =>
    intro i nav hist a b c
    by_cases h : (script i).functionCalls = []
    · simp [goReview, loopItersGo, h, finalizeReview]
    · simp only [goReview, loopItersGo, if_neg h]
      exact ih (i + 1) _ _ _ _ _

theorem goReview_content (script : Script) :
    ∀ (fuel i : Nat) (nav : NavState) (hist : List HistEntry) (a b c : Nat),
      (goReview script fuel i (script i) nav hist a b c).review_content
        = (script (loopItersGo script fuel i)).text := by
  intro fuel
  induction fuel with
  | zero => intro i nav hist a b c; rfl
  | succ f ih =>
    intro i nav hist a b c
    by_cases h : (script i).functionCalls = []
    · simp [goReview, loopItersGo, h, finalizeReview]
    · simp only [goReview, loopItersGo, if_neg h]
      exact ih (i + 1) _ _ _ _ _

theorem goReview_tokens (script : Script) :
    ∀ (fuel i : Nat) (nav : NavState) (hist : List HistEntry) (aIn aOut aTot : Nat),
      (goReview script fuel i (script i) nav hist aIn aOut aTot).token_details =
        ⟨aIn + ∑ j ∈ Finset.range (loopItersGo script fuel i - i), inTok (script (i + 1 + j)),
         aOut + ∑ j ∈ Finset.range (loopItersGo script fuel i - i), outTok (script (i + 1 + j)),
         aTot + ∑ j ∈ Finset.range (loopItersGo script fuel i - i), totTok (script (i + 1 + j))⟩ := by
  intro fuel
  induction fuel with
  | zero => intro i nav hist aIn aOut aTot; simp [goReview, loopItersGo, finalizeReview]
  | succ f ih =>
    intro i nav hist aIn aOut aTot
    by_cases h : (script i).functionCalls = []
    · simp [goReview, loopItersGo, h, finalizeReview]
    · have hge : i + 1 ≤ loopItersGo script f (i + 1) := loopItersGo_ge script f (i + 1)
      have hL : loopItersGo script (f + 1) i = loopItersGo script f (i + 1) := by
        simp [loopItersGo, h]
      simp only [goReview, if_neg h]
      rw [ih (i + 1), hL]
      have hn : loopItersGo script f (i + 1) - i = (loopItersGo script f (i + 1) - (i + 1)) + 1 := by
        omega

      rw [hn]
      have hidx : ∀ (g : Nat → Nat) (j : Nat), g (i + 1 + (j + 1)) = g (i + 1 + 1 + j) := by
        intro g j
        congr 1
        omega
      rw [Finset.sum_range_succ' (fun j => inTok (script (i + 1 + j))),
          Finset.sum_range_succ' (fun j => outTok (script (i + 1 + j))),
          Finset.sum_range_succ' (fun j => totTok (script (i + 1 + j)))]
      simp only [TokenDetails.mk.injEq]
      have harg : ∀ k : Nat, i + 1 + (k + 1) = i + 1 + 1 + k := fun k => by omega
      have hsin : ∑ k ∈ Finset.range (loopItersGo script f (i + 1) - (i + 1)),
          inTok (script (i + 1 + (k + 1)))
          = ∑ k ∈ Finset.range (loopItersGo script f (i + 1) - (i + 1)),
              inTok (script (i + 1 + 1 + k)) :=
        Finset.sum_congr rfl (fun k _ => by rw [harg k])
      have hsout : ∑ k ∈ Finset.range (loopItersGo script f (i + 1) - (i + 1)),
          outTok (script (i + 1 + (k + 1)))
          = ∑ k ∈ Finset.range (loopItersGo script f (i + 1) - (i + 1)),
              outTok (script (i + 1 + 1 + k)) :=
        Finset.sum_congr rfl (fun k _ => by rw [harg k])
      have hstot : ∑ k ∈ Finset.range (loopItersGo script f (i + 1) - (i + 1)),
          totTok (script (i + 1 + (k + 1)))
          = ∑ k ∈ Finset.range (loopItersGo script f (i + 1) - (i + 1)),
              totTok (script (i + 1 + 1 + k)) :=
        Finset.sum_congr rfl (fun k _ => by rw [harg k])
      rw [hsin, hsout, hstot]
      simp only [Nat.add_zero]
      refine ⟨?_, ?_, ?_⟩ <;> omega

theorem reviewCode_iterations (script : Script) (m : Nat) (nav : NavState) :
    (reviewCode script m nav).iterations = loopIters script m :=
  goReview_iterations script m 0 nav [] _ _ _

theorem reviewCode_content (script : Script) (m : Nat) (nav : NavState) :
    (reviewCode script m nav).review_content = (script (loopIters script m)).text :=
  goReview_content script m 0 nav [] _ _ _

theorem reviewCode_tokens (script : Script) (m : Nat) (nav : NavState) :
    (reviewCode script m nav).token_details =
      ⟨∑ i ∈ Finset.range (loopIters script m + 1), inTok (script i),
       ∑ i ∈ Finset.range (loopIters script m + 1), outTok (script i),
       ∑ i ∈ Finset.range (loopIters script m + 1), totTok (script i)⟩ := by
  have hrw : reviewCode script m nav = goReview script m 0 (script 0) nav []
      (inTok (script 0)) (outTok (script 0)) (totTok (script 0)) := rfl
  rw [hrw, goReview_tokens script m 0 nav [] _ _ _]
  have harg : ∀ j : Nat, 0 + 1 + j = j + 1 := fun j => by omega
  have hsin : ∑ j ∈ Finset.range (loopItersGo script m 0 - 0), inTok (script (0 + 1 + j))
      = ∑ j ∈ Finset.range (loopIters script m), inTok (script (j + 1)) := by
    rw [Nat.sub_zero]
    exact Finset.sum_congr rfl (fun j _ => by rw [harg j])
  have hsout : ∑ j ∈ Finset.range (loopItersGo script m 0 - 0), outTok (script (0 + 1 + j))
      = ∑ j ∈ Finset.range (loopIters script m), outTok (script (j + 1)) := by
    rw [Nat.sub_zero]
    exact Finset.sum_congr rfl (fun j _ => by rw [harg j])
  have hstot : ∑ j ∈ Finset.range (loopItersGo script m 0 - 0), totTok (script (0 + 1 + j))
      = ∑ j ∈ Finset.range (loopIters script m), totTok (script (j + 1)) := by
    rw [Nat.sub_zero]
    exact Finset.sum_congr rfl (fun j _ => by rw [harg j])
  simp only [TokenDetails.mk.injEq]
  refine ⟨?_, ?_, ?_⟩
  · rw [hsin, Finset.sum_range_succ']
    omega
  · rw [hsout, Finset.sum_range_succ']
    omega
  · rw [hstot, Finset.sum_range_succ']
    omega

/-! ## C4 — loop termination on scripted handles -/

/-- C4: a scripted handle requesting tool calls for exactly 3 turns and then
answering terminates the loop (budget 10) with iteration count 3 and the
scripted final text as the review content; a handle that never stops
requesting tool calls terminates after exactly 2 iterations under budget 2. -/
theorem C4_loop_termination :
    (∀ (script : Script) (nav : NavState),
        (∀ i, i < 3 → (script i).functionCalls ≠ []) →
        (script 3).functionCalls = [] →
        (reviewCode script 10 nav).iterations = 3 ∧
        (reviewCode script 10 nav).review_content = (script 3).text) ∧
    (∀ (script : Script) (nav : NavState),
        (∀ i, (script i).functionCalls ≠ []) →
        (reviewCode script 2 nav).iterations = 2) := by
  constructor
  · intro script nav h hstop
    have hL : loopIters script 10 = 3 :=
      loopItersGo_stops script 10 0 3 (by omega) (by omega)
        (fun k _ hk2 => h k hk2) hstop
    exact ⟨by rw [reviewCode_iterations, hL],
           by rw [reviewCode_content, hL]⟩
  · intro script nav h
    have hL : loopIters script 2 = 2 := loopItersGo_all script 2 0 (fun k _ _ => h k)
    rw [reviewCode_iterations, hL]

/-- C4 witness: the two halves at concrete scripted handles. -/
theorem C4_witness :
    (reviewCode scriptThree 10 navEmpty).iterations = 3 ∧
    (reviewCode scriptThree 10 navEmpty).review_content = "done" ∧
    (reviewCode scriptForever 2 navEmpty).iterations = 2 := by
  have h1 := C4_loop_termination.1 scriptThree navEmpty
    (by intro i hi; interval_cases i <;> decide) (by decide)
  have hf : ∀ i, (scriptForever i).functionCalls ≠ [] := fun i => by
    simp [scriptForever, respCall]
  have h2 := C4_loop_termination.2 scriptForever navEmpty hf
  refine ⟨h1.1, ?_, h2⟩
  rw [h1.2]
  rfl

/-! ## C3 — budget-exhausted termination and its (absent) marker -/

/-- C3 counterexample: the claim fails on the code.  A budget-exhausted run
(`scriptForever`, budget 2) and a clean model-initiated run (`scriptStops2`,
budget 3, final response call-free) produce byte-for-byte identical review
results — the result metadata carries no status marker distinguishing the two
termination modes. -/
theorem C3_no_termination_marker :
    budgetExhausted scriptForever 2 ∧
    ¬ budgetExhausted scriptStops2 3 ∧
    reviewCode scriptForever 2 navEmpty = reviewCode scriptStops2 3 navEmpty :=
  ⟨by decide, by decide, by decide⟩

/-- C3 amended: when the loop stops with the budget exhausted while the model
still requests tool calls, the result records `iterations = maxIterations`
and the last response's text (possibly empty) — but no dedicated
status/marker field exists, so this termination is not distinguishable from a
clean termination that used exactly `maxIterations` tool rounds. -/
theorem C3_budget_exhaustion_amended :
    ∀ (script : Script) (m : Nat) (nav : NavState),
      budgetExhausted script m →
      (reviewCode script m nav).iterations = m ∧
      (reviewCode script m nav).review_content = (script m).text := by
  intro script m nav h
  exact ⟨by rw [reviewCode_iterations, h.1], by rw [reviewCode_content, h.1]⟩

/-- C3 witness: the amended theorem at a concrete exhausted run. -/
theorem C3_witness :
    (reviewCode scriptForever 2 navEmpty).iterations = 2 ∧
    (reviewCode scriptForever 2 navEmpty).review_content = "" := by
  have h := C3_budget_exhaustion_amended scriptForever 2 navEmpty (by decide)
  refine ⟨h.1, ?_⟩
  rw [h.2]
  rfl

/-! ## C7 — token accumulation across turns -/

/-- C7: across a run consuming responses `0 .. iterations`, the result's
token totals are exactly the sums of the per-turn reported counts, and a turn
with absent usage metadata or absent/`None` fields contributes zero rather
than failing. -/
theorem C7_token_accumulation :
    (∀ (script : Script) (m : Nat) (nav : NavState),
        (reviewCode script m nav).token_details.input_tokens =
          ∑ i ∈ Finset.range ((reviewCode script m nav).iterations + 1), inTok (script i) ∧
        (reviewCode script m nav).token_details.output_tokens =
          ∑ i ∈ Finset.range ((reviewCode script m nav).iterations + 1), outTok (script i) ∧
        (reviewCode script m nav).token_details.total_tokens =
          ∑ i ∈ Finset.range ((reviewCode script m nav).iterations + 1), totTok (script i)) ∧
    (∀ r : Response, r.usage = none → inTok r = 0 ∧ outTok r = 0 ∧ totTok r = 0) ∧
    (∀ (r : Response) (u : Usage), r.usage = some u →
        (u.promptTokens = none → inTok r = 0) ∧
        (u.candidatesTokens = none → outTok r = 0)) := by
  refine ⟨?_, ?_, ?_⟩
  · intro script m nav
    have h := reviewCode_tokens script m nav
    have hit := reviewCode_iterations script m nav
    rw [hit, h]
    exact ⟨rfl, rfl, rfl⟩
  · intro r h
    simp [inTok, outTok, totTok, h]
  · intro r u h
    constructor <;> intro h2 <;> simp [inTok, outTok, h, h2]

/-- C7 witness: the accumulation equations at a concrete script carrying
present, partially missing and absent usage metadata. -/
theorem C7_witness :
    (reviewCode scriptUsage 5 navEmpty).token_details.input_tokens = 11 ∧
    (reviewCode scriptUsage 5 navEmpty).token_details.output_tokens = 7 ∧
    inTok (scriptUsage 2) = 0 := by
  have h := C7_token_accumulation.1 scriptUsage 5 navEmpty
  have h2 := (C7_token_accumulation.2.1 (scriptUsage 2) rfl).1
  refine ⟨?_, ?_, h2⟩
  · rw [h.1]; decide
  · rw [h.2.1]; decide

/-! ## C9 — per-call tool error capture -/

theorem executeFunction_unknown (nav : NavState) (fc : FuncCall)
    (h : knownToolNames.contains fc.name = false) :
    executeFunction nav fc = .error ("Unknown function: " ++ fc.name) := by
  simp only [knownToolNames, List.contains_cons, List.contains_nil,
    Bool.or_eq_false_iff, beq_eq_false_iff_ne] at h
  unfold executeFunction
  split <;> simp_all

/-- C9: within one `ExecutingTools` turn, every requested call (failing or
not) yields a response entry carrying its name; a call whose name is unknown
yields that single call's error entry (the others still execute); and errors
never change the loop's control flow — the iteration count is independent of
the sandbox state entirely. -/
theorem C9_per_call_error_capture :
    (∀ (nav : NavState) (hist : List HistEntry) (calls : List FuncCall),
        ((execCalls nav hist calls).1).map FuncResponse.name = calls.map FuncCall.name) ∧
    (∀ (nav : NavState) (hist : List HistEntry) (calls : List FuncCall) (i : Nat) (fc : FuncCall),
        calls[i]? = some fc →
        knownToolNames.contains fc.name = false →
        ((execCalls nav hist calls).1)[i]? =
          some ⟨fc.name, .error ("Unknown function: " ++ fc.name)⟩) ∧
    (∀ (script : Script) (m : Nat) (nav nav' : NavState),
        (reviewCode script m nav).iterations = (reviewCode script m nav').iterations) := by
  refine ⟨?_, ?_, ?_⟩
  · intro nav hist calls
    induction calls generalizing nav hist with
    | nil => rfl
    | cons fc rest ih =>
      rcases hx : executeFunction nav fc with e | ⟨res, nav2⟩
      · simp [execCalls, hx, ih]
      · simp [execCalls, hx, ih]
  · intro nav hist calls
    induction calls generalizing nav hist with
    | nil => intro i fc hget _; simp at hget
    | cons c rest ih =>
      intro i fc hget hunk
      cases i with
      | zero =>
        simp at hget
        subst hget
        have hx := executeFunction_unknown nav c hunk
        simp [execCalls, hx]
      | succ n =>
        simp at hget
        rcases hx : executeFunction nav c with e | ⟨res, nav2⟩
        · simpa [execCalls, hx] using ih _ _ _ _ hget hunk
        · simpa [execCalls, hx] using ih _ _ _ _ hget hunk
  · intro script m nav nav'
    rw [reviewCode_iterations, reviewCode_iterations]

/-- C9 witness: a turn pairing an unknown tool name with a succeeding call. -/
theorem C9_witness :
    ((execCalls navEmpty [] callsMixed).1).map FuncResponse.name
      = ["bogus_tool", "search_symbol"] ∧
    ((execCalls navEmpty [] callsMixed).1)[0]? =
      some ⟨"bogus_tool", .error "Unknown function: bogus_tool"⟩ := by
  constructor
  · rw [C9_per_call_error_capture.1 navEmpty [] callsMixed]
    rfl
  · exact C9_per_call_error_capture.2.1 navEmpty [] callsMixed 0 ⟨"bogus_tool", []⟩ rfl rfl

/-! ## C5 — token-bucket invariant -/

theorem RL.refill_inv (s : RL) (e : ℚ) (hs : s.Inv) (he : 0 ≤ e) : (s.refill e).Inv := by
  obtain ⟨h1, h2, h3⟩ := hs
  have hm : 0 ≤ e * s.rpm / 60 := div_nonneg (mul_nonneg he h1) (by norm_num)
  refine ⟨h1, ?_, ?_⟩
  · show 0 ≤ min s.burst (s.tokens + e * s.rpm / 60)
    apply le_min (le_trans h2 h3)
    linarith
  · show min s.burst (s.tokens + e * s.rpm / 60) ≤ s.burst
    exact min_le_left _ _

theorem RL.tryAcquire_inv (s : RL) (e : ℚ) (hs : s.Inv) (he : 0 ≤ e) :
    ((s.tryAcquire e).2).Inv := by
  have h' := RL.refill_inv s e hs he
  unfold RL.tryAcquire
  by_cases h : 1 ≤ (s.refill e).tokens
  · simp only [if_pos h]
    exact ⟨h'.1, by simp only []; linarith, by simp only []; linarith [h'.2.2]⟩
  · simp only [if_neg h]
    exact h'

theorem RL.acquireGo_inv :
    ∀ (es : List ℚ) (s : RL) (timeout spent : ℚ), s.Inv → (∀ e ∈ es, 0 ≤ e) →
      ((RL.acquireGo es s timeout spent).2).Inv := by
  intro es
  induction es with
  | nil => intro s timeout spent hs _; exact hs
  | cons e rest ih =>
    intro s timeout spent hs hes
    have he : 0 ≤ e := hes e (List.mem_cons_self e rest)
    have h' := RL.refill_inv s e hs he
    unfold RL.acquireGo
    by_cases h : 1 ≤ (s.refill e).tokens
    · simp only [if_pos h]
      exact ⟨h'.1, by simp only []; linarith, by simp only []; linarith [h'.2.2]⟩
    · simp only [if_neg h]
      by_cases ht : timeout < spent + e + (1 - (s.refill e).tokens) * 60 / s.rpm
      · simp only [if_pos ht]
        exact h'
      · simp only [if_neg ht]
        exact ih (s.refill e) timeout _ h' (fun x hx => hes x (List.mem_cons_of_mem e hx))

theorem RL.runOp_inv (s : RL) (op : RLOp) (hs : s.Inv) (hop : op.nonneg) :
    (s.runOp op).Inv := by
  cases op with
  | tryAcq e => exact RL.tryAcquire_inv s e hs hop
  | acq t es => exact RL.acquireGo_inv es s t 0 hs hop
  | avail _ => exact hs

theorem RL.runOps_inv :
    ∀ (ops : List RLOp) (s : RL), s.Inv → (∀ op ∈ ops, op.nonneg) → (s.runOps ops).Inv := by
  intro ops
  induction ops with
  | nil => intro s hs _; exact hs
  | cons op rest ih =>
    intro s hs hops
    have h1 := RL.runOp_inv s op hs (hops op (List.mem_cons_self op rest))
    exact ih (s.runOp op) h1 (fun x hx => hops x (List.mem_cons_of_mem op hx))

/-- C5: from construction onwards, under non-negative elapsed times, every
sequence of `acquire`/`try_acquire`/`available_tokens` calls keeps
`0 ≤ tokens ≤ burst`; the observation accessor also stays in `[0, burst]`;
and a successful `try_acquire` decrements the refilled count by exactly one,
only when at least one token was available, while a failed one mutates
nothing beyond the refill. -/
theorem C5_token_bucket_invariant :
    (∀ (rpm : Int) (b : Option Int), 0 ≤ rpm → (∀ x, b = some x → 0 ≤ x) →
        (RL.init rpm b).Inv) ∧
    (∀ (s : RL) (ops : List RLOp), s.Inv → (∀ op ∈ ops, op.nonneg) →
        (s.runOps ops).Inv) ∧
    (∀ (s : RL) (e : ℚ), s.Inv → 0 ≤ e →
        0 ≤ s.availableTokens e ∧ s.availableTokens e ≤ s.burst) ∧
    (∀ (s : RL) (e : ℚ), (s.tryAcquire e).1 = true →
        1 ≤ (s.refill e).tokens ∧ (s.tryAcquire e).2.tokens = (s.refill e).tokens - 1) ∧
    (∀ (s : RL) (e : ℚ), (s.tryAcquire e).1 = false → (s.tryAcquire e).2 = s.refill e) := by
  refine ⟨?_, ?_, ?_, ?_, ?_⟩
  · intro rpm b hrpm hb
    cases b with
    | none =>
      refine ⟨?_, ?_, le_refl _⟩
      · show (0 : ℚ) ≤ ((rpm : Int) : ℚ)
        exact_mod_cast hrpm
      · show (0 : ℚ) ≤ ((rpm : Int) : ℚ)
        exact_mod_cast hrpm
    | some x =>
      have hxn := hb x rfl
      have hif : (0 : Int) ≤ if x = 0 then rpm else x := by
        by_cases hx : x = 0
        · rw [if_pos hx]; exact hrpm
        · rw [if_neg hx]; exact hxn
      refine ⟨?_, ?_, le_refl _⟩
      · show (0 : ℚ) ≤ ((rpm : Int) : ℚ)
        exact_mod_cast hrpm
      · show (0 : ℚ) ≤ (((if x = 0 then rpm else x) : Int) : ℚ)
        exact_mod_cast hif
  · intro s ops hs hops
    exact RL.runOps_inv ops s hs hops
  · intro s e hs he
    obtain ⟨h1, h2, h3⟩ := hs
    constructor
    · apply le_min (le_trans h2 h3)
      have hm : 0 ≤ e * s.rpm / 60 := div_nonneg (mul_nonneg he h1) (by norm_num)
      linarith
    · exact min_le_left _ _
  · intro s e h
    by_cases hc : 1 ≤ (s.refill e).tokens
    · refine ⟨hc, ?_⟩
      simp [RL.tryAcquire, if_pos hc]
    · exfalso
      simp [RL.tryAcquire, if_neg hc] at h
  · intro s e h
    by_cases hc : 1 ≤ (s.refill e).tokens
    · exfalso
      simp [RL.tryAcquire, if_pos hc] at h
    · simp [RL.tryAcquire, if_neg hc]

/-- C5 witness: the constructed limiter (`rpm = 120`, burst 2) and a concrete
operation sequence. -/
theorem C5_witness :
    (RL.init 120 (some 2)).Inv ∧ ((RL.init 120 (some 2)).runOps opsSample).Inv := by
  have hinit := C5_token_bucket_invariant.1 120 (some 2) (by norm_num)
    (fun x hx => by cases hx; norm_num)
  have hops : ∀ op ∈ opsSample, op.nonneg := by
    intro op hop
    fin_cases hop <;> norm_num [RLOp.nonneg]
  exact ⟨hinit, C5_token_bucket_invariant.2.1 _ opsSample hinit hops⟩

/-! ## C6 — canonical-key collapsing in the limiter registry -/

theorem getLimiter_mono (m : RateLimitManager) (n t : String) (id : Nat)
    (m' : RateLimitManager) (h : getLimiter m n t = .ok (id, m')) (k : String) (v : Nat)
    (hk : lookupKey m.entries k = some v) : lookupKey m'.entries k = some v := by
  unfold getLimiter at h
  cases hg : getRpmAndPrefix n t with
  | error e => rw [hg] at h; cases h
  | ok p =>
    rcases p with ⟨rpm, canonical⟩
    rw [hg] at h
    simp only at h
    cases hl : lookupKey m.entries (t ++ ":" ++ canonical) with
    | some id0 =>
      rw [hl] at h
      simp only [Except.ok.injEq, Prod.mk.injEq] at h
      rw [← h.2]
      exact hk
    | none =>
      rw [hl] at h
      simp only [Except.ok.injEq, Prod.mk.injEq] at h
      rw [← h.2]
      exact lookupKey_append_of_some _ _ _ _ hk

theorem mgrStep_mono (m : RateLimitManager) (n : String) (k : String) (v : Nat)
    (hk : lookupKey m.entries k = some v) : lookupKey (mgrStep m n).entries k = some v := by
  unfold mgrStep
  cases hg : getLimiter m n "tier1" with
  | error e => exact hk
  | ok p =>
    rcases p with ⟨id, m'⟩
    exact getLimiter_mono m n "tier1" id m' hg k v hk

theorem runGets_mono :
    ∀ (names : List String) (m : RateLimitManager) (k : String) (v : Nat),
      lookupKey m.entries k = some v → lookupKey (runGets names m).entries k = some v := by
  intro names
  induction names with
  | nil => intro m k v hk; exact hk
  | cons n rest ih =>
    intro m k v hk
    exact ih (mgrStep m n) k v (mgrStep_mono m n k v hk)

theorem getLimiter_binds (m : RateLimitManager) (n t : String) (id : Nat)
    (m' : RateLimitManager) (h : getLimiter m n t = .ok (id, m')) :
    ∃ ck, canonKeyOf n t = some ck ∧ lookupKey m'.entries ck = some id := by
  unfold getLimiter at h
  cases hg : getRpmAndPrefix n t with
  | error e => rw [hg] at h; cases h
  | ok p =>
    rcases p with ⟨rpm, canonical⟩
    rw [hg] at h
    simp only at h
    refine ⟨t ++ ":" ++ canonical, by simp [canonKeyOf, hg, Except.toOption], ?_⟩
    cases hl : lookupKey m.entries (t ++ ":" ++ canonical) with
    | some id0 =>
      rw [hl] at h
      simp only [Except.ok.injEq, Prod.mk.injEq] at h
      rw [← h.2, ← h.1]
      exact hl
    | none =>
      rw [hl] at h
      simp only [Except.ok.injEq, Prod.mk.injEq] at h
      rw [← h.2, ← h.1]
      exact lookupKey_append_of_none _ _ _ hl

theorem getLimiter_of_lookup (m : RateLimitManager) (n t ck : String) (id : Nat)
    (hck : canonKeyOf n t = some ck) (hl : lookupKey m.entries ck = some id) :
    getLimiter m n t = .ok (id, m) := by
  unfold canonKeyOf at hck
  unfold getLimiter
  cases hg : getRpmAndPrefix n t with
  | error e => rw [hg] at hck; cases hck
  | ok p =>
    rcases p with ⟨rpm, canonical⟩
    rw [hg] at hck
    simp only [Except.toOption] at hck
    have hck' : t ++ ":" ++ canonical = ck := by
      simpa using hck
    dsimp only
    rw [hck', hl]

/-- C6: the three `gemini-2.5-pro` variants share one limiter identity,
unknown model names share one default identity distinct from it, and — for
the registry's whole lifetime — once a canonical key is bound to a limiter,
any later `get_limiter` for any name with that canonical key returns the same
identity. -/
theorem C6_canonical_key_collapsing :
    (limiterIdOf emptyManager "gemini-2.5-pro" = some 0 ∧
     limiterIdOf mgrA "gemini-2.5-pro-001" = some 0 ∧
     limiterIdOf mgrA "gemini-2.5-pro-latest" = some 0 ∧
     limiterIdOf mgrB "totally-unknown-model-a" = some 1 ∧
     limiterIdOf mgrB "totally-unknown-model-b" = some 1 ∧
     limiterIdOf mgrB "gemini-2.5-pro" = some 0) ∧
    (∀ (m : RateLimitManager) (n : String) (id : Nat) (m' : RateLimitManager)
        (names : List String) (n₂ : String),
        getLimiter m n "tier1" = .ok (id, m') →
        canonKeyOf n₂ "tier1" = canonKeyOf n "tier1" →
        limiterIdOf (runGets names m') n₂ = some id) := by
  constructor
  · exact ⟨rfl, rfl, rfl, rfl, rfl, rfl⟩
  · intro m n id m' names n₂ h hck
    obtain ⟨ck, hck1, hbind⟩ := getLimiter_binds m n "tier1" id m' h
    have hl : lookupKey (runGets names m').entries ck = some id :=
      runGets_mono names m' ck id hbind
    have hck2 : canonKeyOf n₂ "tier1" = some ck := by rw [hck, hck1]
    unfold limiterIdOf
    rw [getLimiter_of_lookup (runGets names m') n₂ "tier1" ck id hck2 hl]
    rfl

/-- C6 witness: lifetime stability across later registry activity, including
a case-folded variant name. -/
theorem C6_witness :
    limiterIdOf (runGets ["gemini-2.5-flash", "what-model"] mgrA) "gemini-2.5-pro-LATEST"
      = some 0 :=
  C6_canonical_key_collapsing.2 emptyManager "gemini-2.5-pro" 0 mgrA
    ["gemini-2.5-flash", "what-model"] "gemini-2.5-pro-LATEST" rfl rfl

/-! ## C8 — unsafe project roots rejected before session mutation -/

/-- C8: a request whose project root does not resolve, is not a directory, or
falls outside the safe-prefix allow-list is answered with an error and the
session map is exactly the one passed in — no entry is created or mutated. -/
theorem C8_unsafe_root_rejected :
    ∀ (env : ServerEnv) (now : Nat) (st : List (String × SessionRec)) (req : ReviewReq),
      (env.resolveStrict req.projectRoot = none ∨
        (∃ comps, env.resolveStrict req.projectRoot = some comps ∧
          (env.isDir comps = false ∨
            ([env.home, env.tempDir, "/tmp", "/var/folders", "/private/var/folders"].any
              (fun p => strStartsWith (pathStr comps) p) = false)))) →
      (∃ e, (handleReview env now st req).1 = Except.error e) ∧
      (handleReview env now st req).2 = st := by
  intro env now st req h
  have hv : ∃ e', validateProjectRoot env req.projectRoot = .error e' := by
    rcases h with h1 | ⟨comps, h2, h3⟩
    · exact ⟨_, by unfold validateProjectRoot; rw [h1]⟩
    · rcases h3 with h4 | h5
      · exact ⟨"Path is not a directory", by unfold validateProjectRoot; rw [h2]; simp [h4]⟩
      · by_cases hd : env.isDir comps
        · exact ⟨"Project path is outside safe boundaries",
            by unfold validateProjectRoot; rw [h2]; simp [hd, h5]⟩
        · exact ⟨"Path is not a directory", by unfold validateProjectRoot; rw [h2]; simp [hd]⟩
  obtain ⟨e', he⟩ := hv
  unfold handleReview
  rw [he]
  exact ⟨⟨_, rfl⟩, rfl⟩

/-- C8 witness: an unresolvable root against a populated-free session map. -/
theorem C8_witness :
    (∃ e, (handleReview envNoFS 0 [] reqBad).1 = Except.error e) ∧
    (handleReview envNoFS 0 [] reqBad).2 = [] :=
  C8_unsafe_root_rejected envNoFS 0 [] reqBad (Or.inl rfl)

/-! ## C2 — project-scoped sessions -/

theorem splitColonAux :
    ∀ (m1 m2 l1 l2 : List Char), ':' ∉ m1 → ':' ∉ m2 →
      m1 ++ ':' :: l1 = m2 ++ ':' :: l2 → m1 = m2 ∧ l1 = l2 := by
  intro m1
  induction m1 with
  | nil =>
    intro m2 l1 l2 _ h2 heq
    cases m2 with
    | nil =>
      simp only [List.nil_append, List.cons.injEq] at heq
      exact ⟨rfl, heq.2⟩
    | cons c m2' =>
      simp only [List.nil_append, List.cons_append, List.cons.injEq] at heq
      exact absurd (heq.1 ▸ List.mem_cons_self c m2') h2
  | cons c m1' ih =>
    intro m2 l1 l2 h1 h2 heq
    cases m2 with
    | nil =>
      simp only [List.cons_append, List.nil_append, List.cons.injEq] at heq
      exact absurd (heq.1 ▸ List.mem_cons_self c m1') h1
    | cons c2 m2' =>
      simp only [List.cons_append, List.cons.injEq] at heq
      obtain ⟨hc, hrest⟩ := heq
      have hih := ih m2' l1 l2 (fun hm => h1 (List.mem_cons_of_mem _ hm))
        (fun hm => h2 (List.mem_cons_of_mem _ hm)) hrest
      exact ⟨by rw [hc, hih.1], hih.2⟩

theorem strData_append (a b : String) : (a ++ b).data = a.data ++ b.data :=
  rfl

theorem sessionKey_data (r n : String) :
    (sessionKey r n).data = r.data ++ ':' :: n.data := by
  show ((r ++ ":") ++ n).data = _
  rw [strData_append, strData_append]
  simp

theorem string_eq_of_data (a b : String) (h : a.data = b.data) : a = b := by
  cases a
  cases b
  exact congrArg String.mk h

theorem handleReview_other_keys (env : ServerEnv) (now : Nat)
    (st : List (String × SessionRec)) (req : ReviewReq) (k : String)
    (h : requestKey env req ≠ some k) :
    lookupKey (handleReview env now st req).2 k = lookupKey st k := by
  cases hv : validateProjectRoot env req.projectRoot with
  | error e => simp [handleReview, hv]
  | ok comps =>
    have hk : sessionKey (pathStr comps) req.sessionName ≠ k := by
      intro hh
      exact h (by simp [requestKey, hv, Except.toOption, hh])
    cases hl : lookupKey st (sessionKey (pathStr comps) req.sessionName) with
    | none =>
      simp only [handleReview, hv, hl]
      exact lookupKey_setKey_ne st _ k _ (fun hh => hk hh.symm)
    | some s =>
      simp only [handleReview, hv, hl]
      exact lookupKey_setKey_ne st _ k _ (fun hh => hk hh.symm)

/-- C2 amended: the composite key keeps distinct roots with a *shared*
session name on distinct sessions (first uses report `new`, a repeat reports
`continued` with the incremented iteration), a request only ever touches its
own composite key, and — provided session names contain no `':'` — the
composite key determines the (root, name) pair, so requests for one root
never read or overwrite another root's sessions.  A session name containing
`':'` can, however, collide two distinct roots onto one key (see the
counterexample). -/
theorem C2_sessions_project_scoped_amended :
    (∀ (rA rB n : String), rA ≠ rB → sessionKey rA n ≠ sessionKey rB n) ∧
    (∀ (rA nA rB nB : String), ':' ∉ nA.data → ':' ∉ nB.data →
        sessionKey rA nA = sessionKey rB nB → rA = rB ∧ nA = nB) ∧
    (∀ (env : ServerEnv) (now : Nat) (st : List (String × SessionRec)) (req : ReviewReq)
        (k : String), requestKey env req ≠ some k →
        lookupKey (handleReview env now st req).2 k = lookupKey st k) ∧
    (∀ (env : ServerEnv) (now : Nat) (st : List (String × SessionRec)) (req : ReviewReq)
        (comps : List String),
        validateProjectRoot env req.projectRoot = .ok comps →
        lookupKey st (sessionKey (pathStr comps) req.sessionName) = none →
        ((handleReview env now st req).1.toOption.map (fun p => (p.1.status, p.1.iteration)))
          = some ("new", 1) ∧
        ∃ sess, lookupKey (handleReview env now st req).2
            (sessionKey (pathStr comps) req.sessionName) = some sess ∧ sess.iteration = 1) ∧
    (∀ (env : ServerEnv) (now : Nat) (st : List (String × SessionRec)) (req : ReviewReq)
        (comps : List String) (s : SessionRec),
        validateProjectRoot env req.projectRoot = .ok comps →
        lookupKey st (sessionKey (pathStr comps) req.sessionName) = some s →
        ((handleReview env now st req).1.toOption.map (fun p => (p.1.status, p.1.iteration)))
          = some ("continued", s.iteration + 1)) := by
  refine ⟨?_, ?_, ?_, ?_, ?_⟩
  · intro rA rB n h heq
    apply h
    have hd : (sessionKey rA n).data = (sessionKey rB n).data := by rw [heq]
    rw [sessionKey_data, sessionKey_data] at hd
    have hlen : rA.data.length = rB.data.length := by
      have h' := congrArg List.length hd
      rw [List.length_append, List.length_append] at h'
      simp only [List.length_cons] at h'
      omega
    exact string_eq_of_data rA rB (List.append_inj_left hd hlen)
  · intro rA nA rB nB hA hB h
    have hd := congrArg String.data h
    rw [sessionKey_data, sessionKey_data] at hd
    have hrev := congrArg List.reverse hd
    simp only [List.reverse_append, List.reverse_cons, List.append_assoc,
      List.singleton_append] at hrev
    have haux := splitColonAux nA.data.reverse nB.data.reverse rA.data.reverse rB.data.reverse
      (fun hm => hA (List.mem_reverse.mp hm)) (fun hm => hB (List.mem_reverse.mp hm)) hrev
    constructor
    · exact string_eq_of_data rA rB (List.reverse_injective haux.2)
    · exact string_eq_of_data nA nB (List.reverse_injective haux.1)
  · exact handleReview_other_keys
  · intro env now st req comps hv hl
    constructor
    · simp [handleReview, hv, hl, Except.toOption]
    · refine ⟨⟨1, now, now, some (countIssues (env.reviewFor (env.buildContext req))),
        req.modelName, 0⟩, ?_, rfl⟩
      simp only [handleReview, hv, hl]
      exact lookupKey_setKey_self st _ _
  · intro env now st req comps s hv hl
    simp [handleReview, hv, hl, Except.toOption]

/-- C2 counterexample: with a colon inside a directory name, two *distinct*
validated project roots collide on one composite key: the first request (root
`/home/user/proj:alpha`, session `x`) creates the session, and a first-ever
request for the other root (`/home/user/proj`, session `alpha:x`) reads and
mutates it, reporting `continued` with iteration 2. -/
theorem C2_colon_key_collision :
    reqColonRoot.projectRoot ≠ reqColonName.projectRoot ∧
    sessionKey "/home/user/proj:alpha" "x" = sessionKey "/home/user/proj" "alpha:x" ∧
    ((handleReview envHome 100 [] reqColonRoot).1.toOption.map
        (fun p => (p.1.status, p.1.iteration))) = some ("new", 1) ∧
    ((handleReview envHome 200 (handleReview envHome 100 [] reqColonRoot).2
        reqColonName).1.toOption.map
        (fun p => (p.1.status, p.1.iteration))) = some ("continued", 2) :=
  ⟨by decide, rfl, rfl, rfl⟩

/-- C2 witness: the amended theorem's parts at concrete inputs. -/
theorem C2_witness :
    ((handleReview envHome 100 [] (⟨"x", "/home/user/proj", "gemini-2.5-pro"⟩ : ReviewReq)).1.toOption.map
        (fun p => (p.1.status, p.1.iteration))) = some ("new", 1) ∧
    sessionKey "/home/user/a" "x" ≠ sessionKey "/home/user/b" "x" := by
  constructor
  · exact (C2_sessions_project_scoped_amended.2.2.2.1 envHome 100 []
      ⟨"x", "/home/user/proj", "gemini-2.5-pro"⟩ ["home", "user", "proj"] rfl rfl).1
  · exact C2_sessions_project_scoped_amended.1 "/home/user/a" "/home/user/b" "x" (by decide)

end AICR
